/- Verification of the Lost & Found application: a shallow embedding of the
database schema, row-level security policies, trigger functions and client
data-access functions, with theorems about the properties they guarantee. -/
import Mathlib

namespace LostFound

/-! ## Enumerated types (schema `CREATE TYPE` definitions) -/

/-- `app_role AS ENUM ('user', 'admin')` -/
inductive AppRole
  | user
  | admin
  deriving DecidableEq, Repr

/-- `item_type AS ENUM ('lost', 'found')` -/
inductive ItemType
  | lost
  | found
  deriving DecidableEq, Repr

/-- `item_status AS ENUM ('active', 'claimed', 'archived')` -/
inductive ItemStatus
  | active
  | claimed
  | archived
  deriving DecidableEq, Repr

/-- `claim_status AS ENUM ('pending', 'approved', 'rejected')` -/
inductive ClaimStatus
  | pending
  | approved
  | rejected
  deriving DecidableEq, Repr

/-! ## Table rows -/

/-- A row of `public.profiles`. -/
structure Profile where
  id : String
  username : String
  full_name : Option String
  role : AppRole
  avatar_url : Option String
  deriving DecidableEq, Repr

/-- A row of `public.items`.  `created_at` timestamps are modelled as naturals. -/
structure Item where
  id : String
  user_id : String
  title : String
  description : String
  image_url : Option String
  category : String
  tags : List String
  location : String
  status : ItemStatus
  type : ItemType
  created_at : Nat
  deriving DecidableEq, Repr

/-- A row of `public.claims`. -/
structure Claim where
  id : String
  item_id : String
  claimant_id : String
  message : String
  status : ClaimStatus
  deriving DecidableEq, Repr

/-- A row of `public.messages`. -/
structure Message where
  id : String
  sender_id : String
  recipient_id : String
  item_id : String
  message : String
  read : Bool
  created_at : Nat
  deriving DecidableEq, Repr

/-- A row of `public.notifications`. -/
structure Notification where
  id : String
  user_id : String
  type : String
  title : String
  message : String
  read : Bool
  deriving DecidableEq, Repr

/-- The mutable database state: the five application tables. -/
structure DB where
  profiles : List Profile
  items : List Item
  claims : List Claim
  messages : List Message
  notifications : List Notification
  deriving DecidableEq, Repr

/-- The empty database, the state before any operation ran. -/
def emptyDB : DB :=
  { profiles := [], items := [], claims := [], messages := [], notifications := [] }

/-- `SELECT ... FROM items WHERE id = iid` returning at most one row. -/
def lookupItem (db : DB) (iid : String) : Option Item :=
  db.items.find? (fun it => decide (it.id = iid))

/-! ## The `create_message_notification` trigger

The version installed by migration `20250701052339-enhance-message-notifications.sql`,
which replaced the original: it looks up the item title and uses it in the
notification body when found, else a generic body. -/

/-- The notification row inserted by the `create_message_notification` trigger
function for a freshly inserted message `m`. -/
def create_message_notification (db : DB) (nid : String) (m : Message) : Notification :=
  { id := nid
    user_id := m.recipient_id
    type := "message"
    title := "New Message"
    message :=
      match lookupItem db m.item_id with
      | some it => "You have received a new message about \"" ++ it.title ++ "\""
      | none => "You have received a new message about an item"
    read := false }

/-- Inserting a row into `public.messages`: the row is appended and the
`on_message_created` trigger synchronously inserts one notification. -/
def insertMessage (db : DB) (nid : String) (m : Message) : DB :=
  { db with
    messages := db.messages ++ [m]
    notifications := db.notifications ++ [create_message_notification db nid m] }

/-! ## The `handle_new_user` trigger: username derivation

`handle_new_user` derives a base username from the signup metadata or the email
local part, sanitizes it (lowercase, keep only `[a-z0-9_]`, first 20 chars),
then appends `1, 2, 3, ...` until the username is free. -/

/-- The decimal digit list of a natural number, the recursive specification of
what `Nat.repr` (used by `base_username || counter`) produces. -/
def digitsRec (n : Nat) : List Char :=
  if _h : n < 10 then [Nat.digitChar n]
  else digitsRec (n / 10) ++ [Nat.digitChar (n % 10)]
  termination_by n
  decreasing_by exact Nat.div_lt_self (by omega) (by omega)

/-- Numeric value of a decimal digit character. -/
def digitVal (c : Char) : Nat := c.toNat - 48

/-- One step of reading a decimal digit string back into a number. -/
def evalStep (a : Nat) (c : Char) : Nat := 10 * a + digitVal c

/-- Read a decimal digit string back into a number. -/
def evalDigits (l : List Char) : Nat := l.foldl evalStep 0

/-- SQL `trim(s)`: strip space characters from both ends. -/
def sqlTrim (s : String) : String :=
  ⟨((s.data.dropWhile (fun c => c = ' ')).reverse.dropWhile (fun c => c = ' ')).reverse⟩

/-- SQL `lower(s)` on ASCII input. -/
def sqlLower (s : String) : String := ⟨s.data.map Char.toLower⟩

/-- `split_part(email, '@', 1)`: the prefix of `email` before the first `'@'`
(the whole string when there is none). -/
def localPart (email : String) : String :=
  ⟨email.data.takeWhile (fun c => c ≠ '@')⟩

/-- Whether a character survives `regexp_replace(s, '[^a-z0-9_]', '', 'g')`. -/
def isHandleChar (c : Char) : Bool :=
  ('a' ≤ c && c ≤ 'z') || ('0' ≤ c && c ≤ '9') || c = '_'

/-- `substring(regexp_replace(lower(s), '[^a-z0-9_]', '', 'g') from 1 for 20)`. -/
def sanitizeUsername (s : String) : String :=
  ⟨(((sqlLower s).data.filter isHandleChar).take 20)⟩

/-- `COALESCE(NULLIF(trim(raw_user_meta_data->>'username'), ''), split_part(email,'@',1))`
followed by the sanitization, giving `base_username`. -/
def baseUsername (metaUsername : Option String) (email : String) : String :=
  sanitizeUsername
    (match metaUsername with
     | some u => if sqlTrim u = "" then localPart email else sqlTrim u
     | none => localPart email)

/-- The candidate tried at loop iteration `k`: `base_username` itself first,
then `base_username || 1`, `base_username || 2`, ... -/
def candidate (base : String) : Nat → String
  | 0 => base
  | k + 1 => base ++ Nat.repr (k + 1)

/-- The `WHILE EXISTS ... LOOP` of `handle_new_user`, with explicit fuel.
`usernameLoop existing base fuel k` keeps trying `candidate base k`,
`candidate base (k+1)`, ... while the candidate is taken. -/
def usernameLoop (existing : List String) (base : String) : Nat → Nat → String
  | 0, k => candidate base k
  | fuel + 1, k =>
      if candidate base k ∈ existing then usernameLoop existing base fuel (k + 1)
      else candidate base k

/-- `final_username`: the first free candidate.  `existing.length + 1` fuel
always suffices (see `usernameLoop_not_mem`). -/
def uniqueUsername (existing : List String) (base : String) : String :=
  usernameLoop existing base (existing.length + 1) 0

/-- The profile row inserted by `handle_new_user` for a new account, given the
usernames already taken.  `full_name` falls back to the final username. -/
def handle_new_user (existing : List String) (uid : String)
    (metaUsername metaFullName : Option String) (email : String) : Profile :=
  let finalUsername := uniqueUsername existing (baseUsername metaUsername email)
  { id := uid
    username := finalUsername
    full_name := some
      (match metaFullName with
       | some f => if sqlTrim f = "" then finalUsername else sqlTrim f
       | none => finalUsername)
    role := AppRole.user
    avatar_url := none }

/-! ## Row-level security policies -/

/-- `public.get_user_role(user_id)`: `SELECT role FROM profiles WHERE id = user_id`
(security definer, bypassing the profiles select policy). -/
def get_user_role (db : DB) (uid : String) : Option AppRole :=
  (db.profiles.find? (fun p => decide (p.id = uid))).map Profile.role

/-- `public.get_user_role(auth.uid()) = 'admin'` (false when the role is NULL). -/
def isAdmin (db : DB) (uid : String) : Bool :=
  get_user_role db uid = some AppRole.admin

/-- The disjunction of the `SELECT`-applicable policies on `public.items`:
`"Anyone can view active items"` (`status = 'active'`) and the `FOR ALL`
policy `"Admins can manage all items"`. -/
def canSelectItem (db : DB) (caller : String) (it : Item) : Bool :=
  decide (it.status = ItemStatus.active) || isAdmin db caller

/-! ## Storage policies (`storage.objects`) for the two buckets -/

/-- Split a list of characters at `'/'`, modelling `string_to_array(name, '/')`. -/
def splitSegs : List Char → List (List Char)
  | [] => [[]]
  | c :: rest =>
    match splitSegs rest with
    | [] => [[c]]
    | s :: ss => if c = '/' then [] :: s :: ss else (c :: s) :: ss

/-- `storage.foldername(name)`: every path segment except the last. -/
def foldername (name : String) : List String :=
  ((splitSegs name.data).map (fun l => (⟨l⟩ : String))).dropLast

/-- `(storage.foldername(name))[1]`, the first folder component (`none` when
the path has no folder, making the SQL comparison to `auth.uid()` NULL/false). -/
def firstFolder (name : String) : Option String := (foldername name).head?

/-- The caller context for storage policies: `auth.uid()` and whether
`auth.role() = 'authenticated'`. -/
structure StorageCtx where
  uid : Option String
  authenticated : Bool
  deriving DecidableEq, Repr

/-- An object row of `storage.objects`. -/
structure StorageObject where
  bucket_id : String
  name : String
  deriving DecidableEq, Repr

/-- `auth.uid()::text = (storage.foldername(name))[1]` (false when either is NULL). -/
def uidMatchesFolder (ctx : StorageCtx) (name : String) : Bool :=
  match ctx.uid, firstFolder name with
  | some u, some f => decide (u = f)
  | _, _ => false

/-- Disjunction of the `SELECT` policies on `storage.objects`:
`"Anyone can view item images"` and `"Anyone can view profile avatars"`. -/
def canSelectObject (_ctx : StorageCtx) (o : StorageObject) : Bool :=
  decide (o.bucket_id = "item-images") || decide (o.bucket_id = "profile-avatars")

/-- Disjunction of the `INSERT` policies: `"Users can upload item images"`
(bucket, authenticated, first folder = uid) and `"Users can upload profile
avatars"` (bucket, authenticated — no folder check). -/
def canInsertObject (ctx : StorageCtx) (o : StorageObject) : Bool :=
  (decide (o.bucket_id = "item-images") && ctx.authenticated
      && uidMatchesFolder ctx o.name)
  || (decide (o.bucket_id = "profile-avatars") && ctx.authenticated)

/-- Disjunction of the `UPDATE` policies: `"Users can update own item images"`
and `"Users can update their own profile avatars"`, both requiring first
folder = uid. -/
def canUpdateObject (ctx : StorageCtx) (o : StorageObject) : Bool :=
  (decide (o.bucket_id = "item-images") && uidMatchesFolder ctx o.name)
  || (decide (o.bucket_id = "profile-avatars") && uidMatchesFolder ctx o.name)

/-- Disjunction of the `DELETE` policies: `"Users can delete own item images"`
and `"Users can delete their own profile avatars"`. -/
def canDeleteObject (ctx : StorageCtx) (o : StorageObject) : Bool :=
  (decide (o.bucket_id = "item-images") && uidMatchesFolder ctx o.name)
  || (decide (o.bucket_id = "profile-avatars") && uidMatchesFolder ctx o.name)

/-! ## Claim operations -/

/-- Whether a claim row with the given `(item_id, claimant_id)` pair exists,
the predicate behind the `UNIQUE(item_id, claimant_id)` constraint and behind
the client-side pre-check of `createClaim`. -/
def claimPairTaken (db : DB) (iid claimant : String) : Bool :=
  db.claims.any (fun c => decide (c.item_id = iid) && decide (c.claimant_id = claimant))

/-- A database-level `INSERT INTO claims`: rejected (`none`) when the
`UNIQUE(item_id, claimant_id)` constraint is violated or a foreign key
(`item_id REFERENCES items`, `claimant_id REFERENCES auth.users`) does not
resolve; otherwise the row is appended. -/
def dbInsertClaim (db : DB) (c : Claim) : Option DB :=
  if claimPairTaken db c.item_id c.claimant_id then none
  else if (lookupItem db c.item_id).isNone then none
  else if (db.profiles.find? (fun p => decide (p.id = c.claimant_id))).isNone then none
  else some { db with claims := db.claims ++ [c] }

/-- The `'claim'` notification inserted for the item owner after a successful
claim insert. -/
def claimNotification (nid : String) (it : Item) : Notification :=
  { id := nid
    user_id := it.user_id
    type := "claim"
    title := "New Claim Received"
    message := "Someone has claimed your item \"" ++ it.title ++ "\""
    read := false }

/-- The client `createClaim` flow (Items page / Dashboard): check for an
existing claim by this caller on this item and stop if found; fetch the item;
insert the claim with status `'pending'`; on insert error stop (the `throw`
skips the notification); on success insert a `'claim'` notification for the
item owner when the item row was resolvable. -/
def createClaim (db : DB) (caller iid cid nid msg : String) : DB :=
  if claimPairTaken db iid caller then db
  else
    match dbInsertClaim db
        { id := cid, item_id := iid, claimant_id := caller
          message := msg, status := ClaimStatus.pending } with
    | none => db
    | some db1 =>
      match lookupItem db iid with
      | some it =>
          { db1 with notifications := db1.notifications ++ [claimNotification nid it] }
      | none => db1

/-- The admin `createAdminClaim` flow (Admin page): insert without the
client-side pre-check; on error stop. -/
def createAdminClaim (db : DB) (caller iid cid msg : String) : DB :=
  match dbInsertClaim db
      { id := cid, item_id := iid, claimant_id := caller
        message := msg, status := ClaimStatus.pending } with
  | none => db
  | some db1 => db1

/-- The admin `updateClaimStatus` flow (AdminClaims): update the claim's
status by id; when the new status is `'approved'`, look the claim up in the
fetched list and set its item's status to `'claimed'` as a second write. -/
def updateClaimStatus (db : DB) (claimId : String) (st : ClaimStatus) : DB :=
  let db1 :=
    { db with
      claims := db.claims.map
        (fun c => if c.id = claimId then { c with status := st } else c) }
  if st = ClaimStatus.approved then
    match db.claims.find? (fun c => decide (c.id = claimId)) with
    | some c =>
        { db1 with
          items := db1.items.map
            (fun it => if it.id = c.item_id then { it with status := ItemStatus.claimed }
                       else it) }
    | none => db1
  else db1

/-! ## Item and account operations -/

/-- Insert from the report-item form: all fields provided except `status`,
which takes the schema default `'active'`.  Rejected (no-op) when the primary
key already exists. -/
def reportItem (db : DB) (iid uid title description category location : String)
    (ty : ItemType) (tags : List String) (image_url : Option String)
    (ts : Nat) : DB :=
  if db.items.any (fun it => decide (it.id = iid)) then db
  else
    { db with
      items := db.items ++
        [{ id := iid, user_id := uid, title := title, description := description
           image_url := image_url, category := category, tags := tags
           location := location, status := ItemStatus.active, type := ty
           created_at := ts }] }

/-- The admin `updateItemStatus` flow: set the status of one item. -/
def updateItemStatus (db : DB) (iid : String) (st : ItemStatus) : DB :=
  { db with
    items := db.items.map
      (fun it => if it.id = iid then { it with status := st } else it) }

/-- The admin `editItem` flow: update title, description and location. -/
def editItem (db : DB) (iid title description location : String) : DB :=
  { db with
    items := db.items.map
      (fun it => if it.id = iid then
          { it with title := title, description := description, location := location }
        else it) }

/-- The admin `deleteItem` flow: delete the item's claims, then the item;
messages referencing the item go by `ON DELETE CASCADE`. -/
def deleteItem (db : DB) (iid : String) : DB :=
  { db with
    claims := db.claims.filter (fun c => !decide (c.item_id = iid))
    items := db.items.filter (fun it => !decide (it.id = iid))
    messages := db.messages.filter (fun m => !decide (m.item_id = iid)) }

/-- The admin `deleteUser` flow (AdminUsers): delete the user's claims, their
items (cascading claims and messages on those items), their messages, their
notifications, and finally the profile. -/
def deleteUser (db : DB) (uid : String) : DB :=
  let ownsItem := fun iid => db.items.any
    (fun it => decide (it.id = iid) && decide (it.user_id = uid))
  { profiles := db.profiles.filter (fun p => !decide (p.id = uid))
    items := db.items.filter (fun it => !decide (it.user_id = uid))
    claims := db.claims.filter
      (fun c => !(decide (c.claimant_id = uid) || ownsItem c.item_id))
    messages := db.messages.filter
      (fun m => !(decide (m.sender_id = uid) || decide (m.recipient_id = uid)
                  || ownsItem m.item_id))
    notifications := db.notifications.filter (fun n => !decide (n.user_id = uid)) }

/-- The profile edit flow (Profile page): update username, full name and
avatar of the caller's profile; rejected (no-op) when the new username is
already taken by a different profile (`username` is `UNIQUE`). -/
def updateProfile (db : DB) (uid username fullName : String)
    (avatar : Option String) : DB :=
  if db.profiles.any (fun p => decide (p.username = username) && !decide (p.id = uid))
  then db
  else
    { db with
      profiles := db.profiles.map
        (fun p => if p.id = uid then
            { p with username := username, full_name := some fullName
                     avatar_url := avatar }
          else p) }

/-- Registration: the `handle_new_user` trigger inserts a profile for the new
account.  Rejected (no-op) when a profile with this id already exists. -/
def register (db : DB) (uid : String) (metaUsername metaFullName : Option String)
    (email : String) : DB :=
  if db.profiles.any (fun p => decide (p.id = uid)) then db
  else
    { db with
      profiles := db.profiles ++
        [handle_new_user (db.profiles.map Profile.username) uid
          metaUsername metaFullName email] }

/-- Mark one notification read (Notifications page). -/
def markNotificationRead (db : DB) (nid : String) : DB :=
  { db with
    notifications := db.notifications.map
      (fun n => if n.id = nid then { n with read := true } else n) }

/-- Mark all of the caller's notifications read (Notifications page). -/
def markAllNotificationsRead (db : DB) (uid : String) : DB :=
  { db with
    notifications := db.notifications.map
      (fun n => if n.user_id = uid then { n with read := true } else n) }

/-- Mark the messages of one conversation read (Messages screen): messages of
the given item addressed to the caller. -/
def markConversationRead (db : DB) (caller iid otherId : String) : DB :=
  { db with
    messages := db.messages.map
      (fun m => if m.item_id = iid ∧ m.recipient_id = caller ∧ m.sender_id = otherId
          then { m with read := true } else m) }

/-! ## The operation alphabet and reachable states -/

/-- One user-triggerable write operation of the application. -/
inductive Op
  | register (uid : String) (metaUsername metaFullName : Option String) (email : String)
  | reportItem (iid uid title description category location : String)
      (ty : ItemType) (tags : List String) (image_url : Option String) (ts : Nat)
  | sendMessage (nid : String) (m : Message)
  | clientCreateClaim (caller iid cid nid msg : String)
  | adminCreateClaim (caller iid cid msg : String)
  | setClaimStatus (claimId : String) (st : ClaimStatus)
  | adminSetItemStatus (iid : String) (st : ItemStatus)
  | adminEditItem (iid title description location : String)
  | adminDeleteItem (iid : String)
  | adminDeleteUser (uid : String)
  | editProfile (uid username fullName : String) (avatar : Option String)
  | markOneNotificationRead (nid : String)
  | markAllRead (uid : String)
  | markConvRead (caller iid otherId : String)
  deriving Repr

/-- Apply one operation to the database. -/
def applyOp (db : DB) : Op → DB
  | Op.register uid mu mf email => register db uid mu mf email
  | Op.reportItem iid uid t d cat loc ty tags img ts =>
      reportItem db iid uid t d cat loc ty tags img ts
  | Op.sendMessage nid m => insertMessage db nid m
  | Op.clientCreateClaim caller iid cid nid msg => createClaim db caller iid cid nid msg
  | Op.adminCreateClaim caller iid cid msg => createAdminClaim db caller iid cid msg
  | Op.setClaimStatus claimId st => updateClaimStatus db claimId st
  | Op.adminSetItemStatus iid st => updateItemStatus db iid st
  | Op.adminEditItem iid t d loc => editItem db iid t d loc
  | Op.adminDeleteItem iid => deleteItem db iid
  | Op.adminDeleteUser uid => deleteUser db uid
  | Op.editProfile uid u f a => updateProfile db uid u f a
  | Op.markOneNotificationRead nid => markNotificationRead db nid
  | Op.markAllRead uid => markAllNotificationsRead db uid
  | Op.markConvRead caller iid otherId => markConversationRead db caller iid otherId

/-- Run a sequence of operations. -/
def run (db : DB) (ops : List Op) : DB := ops.foldl applyOp db

/-- A state is reachable when some operation sequence produces it from the
empty database. -/
def Reachable (db : DB) : Prop :=
  Relation.ReflTransGen (fun a b => ∃ o, applyOp a o = b) emptyDB db

/-! ## Conversations (`fetchConversations`, Messages screen) -/

/-- One conversation bucket. -/
structure Conversation where
  item_id : String
  item_title : String
  other_user_id : String
  other_user_username : String
  messages : List Message
  last_message_date : Nat
  unread_count : Nat
  deriving DecidableEq, Repr

/-- The conversation partner of a message from the caller's point of view. -/
def otherParty (caller : String) (m : Message) : String :=
  if m.sender_id = caller then m.recipient_id else m.sender_id

/-- The grouping key `` `${message.item_id}-${otherUserId}` ``. -/
def convKey (c : Conversation) : String × String := (c.item_id, c.other_user_id)

/-- Whether this message counts towards the unread badge: addressed to the
caller and not yet read. -/
def unreadFor (caller : String) (m : Message) : Bool :=
  decide (m.recipient_id = caller) && !m.read

/-- Process one message into the conversation map (a JS `Map` in insertion
order): append to the existing bucket for its key, or open a new bucket whose
`last_message_date` is this (first-seen, most recent) message's date. -/
def addMessage (caller : String) (db : DB) (acc : List Conversation)
    (m : Message) : List Conversation :=
  if acc.any (fun c => decide (convKey c = (m.item_id, otherParty caller m))) then
    acc.map (fun c =>
      if convKey c = (m.item_id, otherParty caller m) then
        { c with
          messages := c.messages ++ [m]
          unread_count := c.unread_count + (if unreadFor caller m then 1 else 0) }
      else c)
  else
    acc ++
      [{ item_id := m.item_id
         item_title :=
           match lookupItem db m.item_id with
           | some it => it.title
           | none => "Unknown Item"
         other_user_id := otherParty caller m
         other_user_username :=
           match db.profiles.find? (fun p => decide (p.id = otherParty caller m)) with
           | some p => p.username
           | none => "Unknown User"
         messages := [m]
         last_message_date := m.created_at
         unread_count := if unreadFor caller m then 1 else 0 }]

/-- The fetch filter `.or(sender_id.eq.caller,recipient_id.eq.caller)`. -/
def involves (caller : String) (m : Message) : Bool :=
  decide (m.sender_id = caller) || decide (m.recipient_id = caller)

/-- The fetched message list: all messages involving the caller, ordered by
`created_at` descending (`.order('created_at', ascending: false)`). -/
def sortedMessages (caller : String) (db : DB) : List Message :=
  (db.messages.filter (involves caller)).mergeSort
    (fun a b => decide (b.created_at ≤ a.created_at))

/-- The conversation map after the grouping loop, in insertion order. -/
def groupedConversations (caller : String) (db : DB) : List Conversation :=
  (sortedMessages caller db).foldl (addMessage caller db) []

/-- `conversation.messages.sort((a, b) => a.created_at - b.created_at)`. -/
def sortBucket (c : Conversation) : Conversation :=
  { c with
    messages := c.messages.mergeSort (fun a b => decide (a.created_at ≤ b.created_at)) }

/-- `fetchConversations`: fetch all messages whose sender or recipient is the
caller ordered by `created_at` descending, join items and profiles
client-side, group by `(item_id, other_party)`, sort each bucket's messages
ascending by date, and sort the bucket list by most-recent-message
descending. -/
def fetchConversations (caller : String) (db : DB) : List Conversation :=
  ((groupedConversations caller db).map sortBucket).mergeSort
    (fun a b => decide (b.last_message_date ≤ a.last_message_date))

/-- Well-formedness of one conversation bucket with respect to the caller and
the database: every message belongs to the bucket's key, the unread count is
the number of unread messages addressed to the caller, `last_message_date`
is the greatest message date in the bucket, and the displayed item title and
username come from the client-side join. -/
def BucketOK (caller : String) (db : DB) (c : Conversation) : Prop :=
  c.messages ≠ [] ∧
  (∀ m ∈ c.messages,
      m.item_id = c.item_id ∧ otherParty caller m = c.other_user_id ∧
        involves caller m = true) ∧
  c.unread_count = (c.messages.filter (unreadFor caller)).length ∧
  c.last_message_date ∈ c.messages.map Message.created_at ∧
  (∀ m ∈ c.messages, m.created_at ≤ c.last_message_date) ∧
  c.item_title = (match lookupItem db c.item_id with
    | some it => it.title
    | none => "Unknown Item") ∧
  c.other_user_username =
    (match db.profiles.find? (fun p => decide (p.id = c.other_user_id)) with
     | some p => p.username
     | none => "Unknown User")

/-- Invariant of the grouping loop: buckets are well-formed and their keys
are pairwise distinct. -/
def GroupInv (caller : String) (db : DB) (acc : List Conversation) : Prop :=
  (∀ c ∈ acc, BucketOK caller db c) ∧
  acc.Pairwise (fun a b => convKey a ≠ convKey b)

/-! ## Invariants -/

/-- The `UNIQUE(item_id, claimant_id)` invariant: no two claim rows share
their `(item, claimant)` pair. -/
def PairsUnique (db : DB) : Prop :=
  db.claims.Pairwise
    (fun a b => ¬(a.item_id = b.item_id ∧ a.claimant_id = b.claimant_id))

/-- The `items` primary-key invariant: item ids are pairwise distinct. -/
def NodupItemIds (db : DB) : Prop := (db.items.map Item.id).Nodup

instance (db : DB) : Decidable (PairsUnique db) := by
  unfold PairsUnique; infer_instance

instance (db : DB) : Decidable (NodupItemIds db) := by
  unfold NodupItemIds; infer_instance

/-! ## Concrete states used as witnesses and counterexamples -/

/-- A short demonstration trace: two registrations, one reported item, one
claim on it. -/
def demoOps : List Op :=
  [Op.register "u1" (some "alice") none "alice@example.com",
   Op.register "u2" (some "bob") none "bob@example.com",
   Op.reportItem "i1" "u1" "Blue Backpack" "d" "bags" "park" ItemType.found [] none 0,
   Op.clientCreateClaim "u2" "i1" "c1" "n1" "mine"]

/-- The state reached by `demoOps`. -/
def demoDB : DB := run emptyDB demoOps

/-- A pending claim by `u2` on item `i1`. -/
def pendingClaim : Claim :=
  { id := "c1", item_id := "i1", claimant_id := "u2"
    message := "mine", status := ClaimStatus.pending }

/-- An active item owned by `u1`. -/
def activeItem : Item :=
  { id := "i1", user_id := "u1", title := "Blue Backpack", description := "d"
    image_url := none, category := "bags", tags := [], location := "park"
    status := ItemStatus.active, type := ItemType.found, created_at := 0 }

/-- A state with one active item and one pending claim on it. -/
def claimFlowDB : DB :=
  { profiles := [{ id := "u1", username := "alice", full_name := none
                   role := AppRole.user, avatar_url := none },
                 { id := "u2", username := "bob", full_name := none
                   role := AppRole.user, avatar_url := none }]
    items := [activeItem]
    claims := [pendingClaim]
    messages := [], notifications := [] }

/-- An archived item owned by `u1`. -/
def archivedItem : Item :=
  { id := "i1", user_id := "u1", title := "Blue Backpack", description := "d"
    image_url := none, category := "bags", tags := [], location := "park"
    status := ItemStatus.archived, type := ItemType.found, created_at := 0 }

/-- A state where `u1` (a non-admin) owns an archived item. -/
def itemSelectDB : DB :=
  { profiles := [{ id := "u1", username := "alice", full_name := none
                   role := AppRole.user, avatar_url := none }]
    items := [archivedItem]
    claims := [], messages := [], notifications := [] }

/-- An authenticated storage caller with uid `alice`. -/
def aliceCtx : StorageCtx := { uid := some "alice", authenticated := true }

/-- An avatar object under `bob`'s folder. -/
def bobAvatar : StorageObject :=
  { bucket_id := "profile-avatars", name := "bob/avatar.png" }

/-! ## Theorems -/

/-- Claim C1: for every newly inserted Message row, exactly one Notification
row is created for the message's recipient within the same operation, with
type `message`, and with a body that includes the referenced Item's title when
that item resolves, else a generic body. -/
theorem message_insert_creates_one_notification (db : DB) (nid : String) (m : Message) :
    ∃ n : Notification,
      (insertMessage db nid m).notifications = db.notifications ++ [n] ∧
      (insertMessage db nid m).messages = db.messages ++ [m] ∧
      n.user_id = m.recipient_id ∧
      n.type = "message" ∧
      ((∃ it, lookupItem db m.item_id = some it ∧
          n.message = "You have received a new message about \"" ++ it.title ++ "\"" ∧
          ∃ pre post, n.message = pre ++ it.title ++ post) ∨
        (lookupItem db m.item_id = none ∧
          n.message = "You have received a new message about an item")) := by
  refine ⟨create_message_notification db nid m, rfl, rfl, rfl, rfl, ?_⟩
  cases h : lookupItem db m.item_id with
  | some it =>
      exact Or.inl ⟨it, rfl, by simp [create_message_notification, h],
        "You have received a new message about \"", "\"",
        by simp [create_message_notification, h]⟩
  | none => exact Or.inr ⟨rfl, by simp [create_message_notification, h]⟩

/-! ### Decimal representation: `Nat.repr` is injective and nonempty -/

theorem digitsRec_lt {n : Nat} (h : n < 10) : digitsRec n = [Nat.digitChar n] := by
  unfold digitsRec
  simp [h]

theorem digitsRec_ge {n : Nat} (h : ¬n < 10) :
    digitsRec n = digitsRec (n / 10) ++ [Nat.digitChar (n % 10)] := by
  conv_lhs => unfold digitsRec
  simp [h]

theorem toDigitsCore_eq_digitsRec :
    ∀ (fuel n : Nat) (ds : List Char), n < fuel →
      Nat.toDigitsCore 10 fuel n ds = digitsRec n ++ ds := by
  intro fuel
  induction fuel with
  | zero => intro n ds h; omega
  | succ fuel ih =>
    intro n ds h
    by_cases h10 : n / 10 = 0
    · have hlt : n < 10 := (Nat.div_eq_zero_iff (by omega)).mp h10
      simp [Nat.toDigitsCore, h10, digitsRec_lt hlt, Nat.mod_eq_of_lt hlt]
    · have hge : ¬n < 10 := fun hlt => h10 (Nat.div_eq_of_lt hlt)
      have hfuel : n / 10 < fuel :=
        Nat.lt_of_lt_of_le (Nat.div_lt_self (by omega) (by omega)) (by omega)
      simp only [Nat.toDigitsCore, h10, if_false]
      rw [ih _ _ hfuel, digitsRec_ge hge, List.append_assoc]
      rfl

theorem repr_eq_digitsRec (n : Nat) : Nat.repr n = List.asString (digitsRec n) := by
  have h : Nat.repr n = List.asString (Nat.toDigitsCore 10 (n + 1) n []) := rfl
  rw [h, toDigitsCore_eq_digitsRec (n + 1) n [] (by omega), List.append_nil]

theorem digitVal_digitChar {d : Nat} (h : d < 10) :
    digitVal (Nat.digitChar d) = d := by
  interval_cases d <;> decide

theorem foldl_evalStep_digitsRec (n : Nat) :
    ∀ a, (digitsRec n).foldl evalStep a = a * 10 ^ (digitsRec n).length + n := by
  induction n using Nat.strong_induction_on with
  | _ n ih =>
    intro a
    by_cases h : n < 10
    · rw [digitsRec_lt h]
      simp [evalStep, digitVal_digitChar h]
      omega
    · rw [digitsRec_ge h, List.foldl_append]
      have hn : n / 10 < n := Nat.div_lt_self (by omega) (by omega)
      rw [ih _ hn a]
      have hmod : n % 10 < 10 := Nat.mod_lt n (by omega)
      have hdm : 10 * (n / 10) + n % 10 = n := Nat.div_add_mod n 10
      simp only [List.foldl_cons, List.foldl_nil, evalStep, digitVal_digitChar hmod,
        List.length_append, List.length_cons, List.length_nil]
      calc 10 * (a * 10 ^ (digitsRec (n / 10)).length + n / 10) + n % 10
          = a * 10 ^ (digitsRec (n / 10)).length * 10 + (10 * (n / 10) + n % 10) := by
            ring
        _ = a * 10 ^ ((digitsRec (n / 10)).length + (0 + 1)) + n := by
            rw [hdm]; ring

theorem evalDigits_digitsRec (n : Nat) : evalDigits (digitsRec n) = n := by
  have h := foldl_evalStep_digitsRec n 0
  simpa [evalDigits] using h

theorem digitsRec_injective : Function.Injective digitsRec := by
  intro a b h
  have ha := evalDigits_digitsRec a
  rw [h, evalDigits_digitsRec] at ha
  exact ha.symm

theorem repr_injective : Function.Injective Nat.repr := by
  intro a b h
  apply digitsRec_injective
  rw [repr_eq_digitsRec, repr_eq_digitsRec] at h
  exact congrArg String.data h

theorem digitsRec_ne_nil (n : Nat) : digitsRec n ≠ [] := by
  by_cases h : n < 10
  · rw [digitsRec_lt h]; simp
  · rw [digitsRec_ge h]; simp

theorem repr_length_pos (n : Nat) : 0 < (Nat.repr n).length := by
  rw [repr_eq_digitsRec]
  show 0 < (digitsRec n).length
  exact List.length_pos.mpr (digitsRec_ne_nil n)

/-! ### The username collision loop -/

theorem candidate_injective (base : String) : Function.Injective (candidate base) := by
  intro a b h
  match a, b with
  | 0, 0 => rfl
  | 0, k + 1 =>
      exfalso
      have hl := congrArg String.length h
      rw [candidate, candidate, String.length_append] at hl
      have := repr_length_pos (k + 1)
      omega
  | k + 1, 0 =>
      exfalso
      have hl := congrArg String.length h
      rw [candidate, candidate, String.length_append] at hl
      have := repr_length_pos (k + 1)
      omega
  | j + 1, k + 1 =>
      rw [candidate, candidate] at h
      have hdata := congrArg String.data h
      rw [String.data_append, String.data_append] at hdata
      have hrepr : Nat.repr (j + 1) = Nat.repr (k + 1) := by
        apply String.ext
        exact List.append_cancel_left hdata
      have := repr_injective hrepr
      omega

theorem exists_fresh_candidate (existing : List String) (base : String) :
    ∃ k, k ≤ existing.length ∧ candidate base k ∉ existing := by
  by_contra hcon
  push_neg at hcon
  have hmaps : ∀ k ∈ Finset.range (existing.length + 1),
      candidate base k ∈ existing.toFinset := by
    intro k hk
    rw [List.mem_toFinset]
    exact hcon k (by simpa [Nat.lt_succ_iff] using hk)
  have hcard := Finset.card_le_card_of_injOn (candidate base) hmaps
    ((candidate_injective base).injOn)
  rw [Finset.card_range] at hcard
  have hle := existing.toFinset_card_le
  omega

theorem usernameLoop_not_mem (existing : List String) (base : String) :
    ∀ (fuel k : Nat),
      (∃ j, k ≤ j ∧ j < k + fuel ∧ candidate base j ∉ existing) →
      usernameLoop existing base fuel k ∉ existing := by
  intro fuel
  induction fuel with
  | zero =>
      rintro k ⟨j, h1, h2, _⟩
      omega
  | succ fuel ih =>
      rintro k ⟨j, hj1, hj2, hj3⟩
      by_cases hmem : candidate base k ∈ existing
      · rw [usernameLoop, if_pos hmem]
        apply ih
        have hne : j ≠ k := fun he => hj3 (he ▸ hmem)
        exact ⟨j, by omega, by omega, hj3⟩
      · rw [usernameLoop, if_neg hmem]
        exact hmem

/-- Claim C9: for every finite set of existing handles and every non-empty
base candidate, the suffix-appending loop terminates (it is a total function
here, with fuel `existing.length + 1` shown sufficient) and its result is a
handle not contained in the existing set. -/
theorem uniqueUsername_not_mem (existing : List String) (base : String)
    (_hbase : base ≠ "") : uniqueUsername existing base ∉ existing := by
  obtain ⟨k, hk, hfree⟩ := exists_fresh_candidate existing base
  exact usernameLoop_not_mem existing base (existing.length + 1) 0
    ⟨k, by omega, by omega, hfree⟩

/-- Witness for C9 at a concrete input. -/
theorem uniqueUsername_not_mem_witness :
    ("alice" : String) ≠ "" ∧ uniqueUsername ["alice"] "alice" ∉ ["alice"] :=
  ⟨by decide, uniqueUsername_not_mem ["alice"] "alice" (by decide)⟩

theorem uniqueUsername_of_fresh (E : List String) (base : String) (h : base ∉ E) :
    uniqueUsername E base = base := by
  unfold uniqueUsername
  rw [usernameLoop, if_neg]
  · rfl
  · exact h

theorem uniqueUsername_of_taken_once (E : List String) (base : String)
    (h0 : base ∈ E) (h1 : base ++ Nat.repr 1 ∉ E) :
    uniqueUsername E base = base ++ Nat.repr 1 := by
  obtain ⟨k, hk⟩ : ∃ k, E.length = k + 1 := by
    cases E with
    | nil => simp at h0
    | cons a l => exact ⟨l.length, rfl⟩
  unfold uniqueUsername
  rw [hk, usernameLoop]
  have hc0 : candidate base 0 = base := rfl
  rw [hc0, if_pos h0, usernameLoop]
  have hc1 : candidate base (0 + 1) = base ++ Nat.repr 1 := rfl
  rw [hc1, if_neg h1]

/-- Claim C2: on registration the handle is the metadata username or email
local part, lowercased, stripped to `[a-z0-9_]`, truncated to 20 chars, with
integer suffixes `1, 2, ...` appended on collision; two registrations both
deriving `johnsmith` get `johnsmith` and `johnsmith1`, and the display name
falls back to the handle. -/
theorem handle_registration_collision (E : List String)
    (h1 : "johnsmith" ∉ E) (h2 : "johnsmith1" ∉ E) :
    (handle_new_user E "u1" (some " JohnSmith ") none "john@example.com").username
        = "johnsmith" ∧
    (handle_new_user (E ++ ["johnsmith"]) "u2" none none "JohnSmith@example.com").username
        = "johnsmith1" ∧
    (handle_new_user E "u1" (some " JohnSmith ") none "john@example.com").full_name
        = some "johnsmith" ∧
    (∀ mu em, (baseUsername mu em).length ≤ 20 ∧
        ∀ c ∈ (baseUsername mu em).data, isHandleChar c = true) ∧
    baseUsername (some " JohnSmith ") "john@example.com" = "johnsmith" ∧
    baseUsername none "JohnSmith@example.com" = "johnsmith" ∧
    baseUsername (some "ABCDEFGHIJKLMNOPQRSTUVWXYZ") "x@y" = "abcdefghijklmnopqrst" := by
  have hb1 : baseUsername (some " JohnSmith ") "john@example.com" = "johnsmith" := by
    decide
  have hb2 : baseUsername none "JohnSmith@example.com" = "johnsmith" := by decide
  have hu1 : uniqueUsername E "johnsmith" = "johnsmith" :=
    uniqueUsername_of_fresh E "johnsmith" h1
  refine ⟨?_, ?_, ?_, ?_, hb1, hb2, by decide⟩
  · show uniqueUsername E (baseUsername (some " JohnSmith ") "john@example.com")
        = "johnsmith"
    rw [hb1, hu1]
  · show uniqueUsername (E ++ ["johnsmith"]) (baseUsername none "JohnSmith@example.com")
        = "johnsmith1"
    rw [hb2]
    have hmem : ("johnsmith" : String) ∈ E ++ ["johnsmith"] := by
      simp
    have hnot : ("johnsmith" : String) ++ Nat.repr 1 ∉ E ++ ["johnsmith"] := by
      have : ("johnsmith" : String) ++ Nat.repr 1 = "johnsmith1" := by decide
      rw [this]
      simp only [List.mem_append, List.mem_singleton]
      rintro (hc | hc)
      · exact h2 hc
      · exact absurd hc (by decide)
    rw [uniqueUsername_of_taken_once _ _ hmem hnot]
    decide
  · show some (uniqueUsername E (baseUsername (some " JohnSmith ") "john@example.com"))
        = some "johnsmith"
    rw [hb1, hu1]
  · intro mu em
    constructor
    · show (((sqlLower _).data.filter isHandleChar).take 20).length ≤ 20
      rw [List.length_take]
      exact min_le_left _ _
    · intro c hc
      have hc' : c ∈ (sqlLower _).data.filter isHandleChar :=
        List.mem_of_mem_take hc
      exact (List.mem_filter.mp hc').2

/-- Witness for C2: the two-registration scenario starting from no profiles. -/
theorem handle_registration_collision_witness :
    (handle_new_user [] "u1" (some " JohnSmith ") none "john@example.com").username
        = "johnsmith" ∧
    (handle_new_user ([] ++ ["johnsmith"]) "u2" none none "JohnSmith@example.com").username
        = "johnsmith1" ∧
    (handle_new_user [] "u1" (some " JohnSmith ") none "john@example.com").full_name
        = some "johnsmith" ∧
    (∀ mu em, (baseUsername mu em).length ≤ 20 ∧
        ∀ c ∈ (baseUsername mu em).data, isHandleChar c = true) ∧
    baseUsername (some " JohnSmith ") "john@example.com" = "johnsmith" ∧
    baseUsername none "JohnSmith@example.com" = "johnsmith" ∧
    baseUsername (some "ABCDEFGHIJKLMNOPQRSTUVWXYZ") "x@y" = "abcdefghijklmnopqrst" :=
  handle_registration_collision [] (by decide) (by decide)

/-! ### Item select policy (C5) -/

/-- Counterexample to C5 as stated: the owner of a non-active item cannot
select it (there is no owner-read policy on `items`), so "read iff active or
owner or admin" fails for `u1` reading their own archived item. -/
theorem item_select_owner_denied :
    ¬ (canSelectItem itemSelectDB "u1" archivedItem = true ↔
        (archivedItem.status = ItemStatus.active ∨ archivedItem.user_id = "u1" ∨
          isAdmin itemSelectDB "u1" = true)) := by
  decide

/-- Claim C5 (amended): a caller may select an Item row if and only if the
row's status is `active` or the caller is an admin; ownership grants no read
access. -/
theorem item_select_policy (db : DB) (caller : String) (it : Item) :
    canSelectItem db caller it = true ↔
      (it.status = ItemStatus.active ∨ isAdmin db caller = true) := by
  simp [canSelectItem]

/-! ### Storage policies (C7) -/

theorem uidMatchesFolder_iff (ctx : StorageCtx) (u name : String)
    (huid : ctx.uid = some u) :
    uidMatchesFolder ctx name = true ↔ firstFolder name = some u := by
  unfold uidMatchesFolder
  rw [huid]
  cases h : firstFolder name with
  | none => simp
  | some f => simp [eq_comm]

/-- Counterexample to C7 as stated: an authenticated caller `alice` may insert
an object under `bob`'s folder in the `profile-avatars` bucket (the upload
policy there checks only authentication, not the folder), so "write permitted
iff the path prefix equals the uploader" fails. -/
theorem avatar_upload_ignores_folder :
    ¬ (canInsertObject aliceCtx bobAvatar = true ↔
        uidMatchesFolder aliceCtx bobAvatar.name = true) := by
  decide

/-- Claim C7 (amended): reads are public for both buckets; for `item-images`
every authenticated write (insert, update, delete) requires the first folder
of the path to equal the caller's id; for `profile-avatars` update and delete
require it too, but insert requires only authentication. -/
theorem storage_policy_characterization (ctx : StorageCtx) (o : StorageObject)
    (u : String) (hauth : ctx.authenticated = true) (huid : ctx.uid = some u) :
    (o.bucket_id = "item-images" →
      ((canInsertObject ctx o = true ↔ firstFolder o.name = some u) ∧
        (canUpdateObject ctx o = true ↔ firstFolder o.name = some u) ∧
        (canDeleteObject ctx o = true ↔ firstFolder o.name = some u))) ∧
    (o.bucket_id = "profile-avatars" →
      (canInsertObject ctx o = true ∧
        (canUpdateObject ctx o = true ↔ firstFolder o.name = some u) ∧
        (canDeleteObject ctx o = true ↔ firstFolder o.name = some u))) ∧
    ((o.bucket_id = "item-images" ∨ o.bucket_id = "profile-avatars") →
      canSelectObject ctx o = true) := by
  have hmatch := uidMatchesFolder_iff ctx u o.name huid
  have hne : ("item-images" : String) ≠ "profile-avatars" := by decide
  refine ⟨fun hb => ?_, fun hb => ?_, fun hb => ?_⟩
  · simp [canInsertObject, canUpdateObject, canDeleteObject, hb, hauth, hne, hmatch]
  · simp [canInsertObject, canUpdateObject, canDeleteObject, hb, hauth, Ne.symm hne,
      hmatch]
  · rcases hb with hb | hb <;> simp [canSelectObject, hb]

/-- Witness for C7 (amended) at concrete inputs. -/
theorem storage_policy_characterization_witness :
    aliceCtx.authenticated = true ∧ aliceCtx.uid = some "alice" ∧
    (bobAvatar.bucket_id = "item-images" →
      ((canInsertObject aliceCtx bobAvatar = true ↔
          firstFolder bobAvatar.name = some "alice") ∧
        (canUpdateObject aliceCtx bobAvatar = true ↔
          firstFolder bobAvatar.name = some "alice") ∧
        (canDeleteObject aliceCtx bobAvatar = true ↔
          firstFolder bobAvatar.name = some "alice"))) ∧
    (bobAvatar.bucket_id = "profile-avatars" →
      (canInsertObject aliceCtx bobAvatar = true ∧
        (canUpdateObject aliceCtx bobAvatar = true ↔
          firstFolder bobAvatar.name = some "alice") ∧
        (canDeleteObject aliceCtx bobAvatar = true ↔
          firstFolder bobAvatar.name = some "alice"))) ∧
    ((bobAvatar.bucket_id = "item-images" ∨ bobAvatar.bucket_id = "profile-avatars") →
      canSelectObject aliceCtx bobAvatar = true) := by
  have h := storage_policy_characterization aliceCtx bobAvatar "alice" (by decide)
    (by decide)
  exact ⟨by decide, by decide, h.1, h.2.1, h.2.2⟩

/-! ### Claim approval (C4) -/

/-- Claim C4: approving a claim also sets that claim's item's status to
`claimed`; rejecting it, or setting it to pending, leaves every item
untouched (claims are always updated by id in either case). -/
theorem approve_claim_updates_item (db : DB) (claimId : String) (c : Claim)
    (hfind : db.claims.find? (fun c0 => decide (c0.id = claimId)) = some c) :
    ((updateClaimStatus db claimId ClaimStatus.approved).items =
        db.items.map (fun it =>
          if it.id = c.item_id then { it with status := ItemStatus.claimed } else it)) ∧
    (∀ it ∈ (updateClaimStatus db claimId ClaimStatus.approved).items,
        it.id = c.item_id → it.status = ItemStatus.claimed) ∧
    ((updateClaimStatus db claimId ClaimStatus.rejected).items = db.items) ∧
    ((updateClaimStatus db claimId ClaimStatus.pending).items = db.items) ∧
    (∀ st, (updateClaimStatus db claimId st).claims =
        db.claims.map (fun c0 =>
          if c0.id = claimId then { c0 with status := st } else c0)) := by
  have happrove : (updateClaimStatus db claimId ClaimStatus.approved).items =
      db.items.map (fun it =>
        if it.id = c.item_id then { it with status := ItemStatus.claimed } else it) := by
    simp [updateClaimStatus, hfind]
  refine ⟨happrove, ?_, by simp [updateClaimStatus], by simp [updateClaimStatus], ?_⟩
  · intro it hmem hid
    rw [happrove] at hmem
    obtain ⟨it0, _, rfl⟩ := List.mem_map.mp hmem
    by_cases h0 : it0.id = c.item_id
    · simp [h0]
    · simp only [if_neg h0] at hid ⊢
      exact absurd hid h0
  · intro st
    cases st <;> simp [updateClaimStatus, hfind]

/-- Witness for C4 on a concrete state with one pending claim. -/
theorem approve_claim_updates_item_witness :
    (claimFlowDB.claims.find? (fun c0 => decide (c0.id = "c1")) = some pendingClaim) ∧
    ((updateClaimStatus claimFlowDB "c1" ClaimStatus.approved).items =
        claimFlowDB.items.map (fun it =>
          if it.id = pendingClaim.item_id then { it with status := ItemStatus.claimed }
          else it)) ∧
    ((updateClaimStatus claimFlowDB "c1" ClaimStatus.rejected).items =
        claimFlowDB.items) :=
  ⟨by decide,
   (approve_claim_updates_item claimFlowDB "c1" pendingClaim (by decide)).1,
   (approve_claim_updates_item claimFlowDB "c1" pendingClaim (by decide)).2.2.1⟩

/-! ### Claim-creation error path (C10) -/

/-- Claim C10: in the client claim-creation flow, the `'claim'` notification
is inserted only after the claim insert succeeds; when the insert returns an
error the whole state is unchanged — no notification row and no claim row. -/
theorem claim_insert_error_leaves_state (db : DB) (caller iid cid nid msg : String)
    (herr : dbInsertClaim db
        { id := cid, item_id := iid, claimant_id := caller
          message := msg, status := ClaimStatus.pending } = none) :
    createClaim db caller iid cid nid msg = db ∧
    (createClaim db caller iid cid nid msg).notifications = db.notifications ∧
    (createClaim db caller iid cid nid msg).claims = db.claims := by
  have h : createClaim db caller iid cid nid msg = db := by
    unfold createClaim
    by_cases hpre : claimPairTaken db iid caller
    · rw [if_pos hpre]
    · rw [if_neg hpre, herr]
  exact ⟨h, by rw [h], by rw [h]⟩

/-- Witness for C10: claiming a nonexistent item fails its foreign key and
leaves the state unchanged. -/
theorem claim_insert_error_leaves_state_witness :
    (dbInsertClaim emptyDB
        { id := "c9", item_id := "ghost", claimant_id := "u9"
          message := "hi", status := ClaimStatus.pending } = none) ∧
    createClaim emptyDB "u9" "ghost" "c9" "n9" "hi" = emptyDB :=
  ⟨by decide,
   (claim_insert_error_leaves_state emptyDB "u9" "ghost" "c9" "n9" "hi" (by decide)).1⟩

/-! ### One claim per (item, claimant) pair (C3) -/

theorem pairTaken_of_exists (db : DB) (iid claimant : String)
    (h : ∃ c0 ∈ db.claims, c0.item_id = iid ∧ c0.claimant_id = claimant) :
    claimPairTaken db iid claimant = true := by
  obtain ⟨c0, hmem, h1, h2⟩ := h
  unfold claimPairTaken
  rw [List.any_eq_true]
  exact ⟨c0, hmem, by simp [h1, h2]⟩

theorem pairsUnique_dbInsert (db : DB) (c : Claim) (db1 : DB) (h : PairsUnique db)
    (hins : dbInsertClaim db c = some db1) : PairsUnique db1 := by
  unfold dbInsertClaim at hins
  split_ifs at hins with h1 h2 h3
  obtain rfl := Option.some.inj hins
  unfold PairsUnique
  rw [List.pairwise_append]
  refine ⟨h, List.pairwise_singleton _ _, ?_⟩
  intro a ha b hb
  rw [List.mem_singleton] at hb
  rw [hb]
  rintro ⟨hi, hc⟩
  rw [Bool.not_eq_true] at h1
  have hcontra := pairTaken_of_exists db c.item_id c.claimant_id ⟨a, ha, hi, hc⟩
  rw [h1] at hcontra
  cases hcontra

theorem pairsUnique_map_status (db : DB) (h : PairsUnique db)
    (f : Claim → Claim)
    (hf : ∀ a, (f a).item_id = a.item_id ∧ (f a).claimant_id = a.claimant_id) :
    (db.claims.map f).Pairwise
      (fun a b => ¬(a.item_id = b.item_id ∧ a.claimant_id = b.claimant_id)) := by
  rw [List.pairwise_map]
  refine h.imp ?_
  intro a b hab hpair
  apply hab
  rw [← (hf a).1, ← (hf a).2, ← (hf b).1, ← (hf b).2]
  exact hpair

theorem pairsUnique_applyOp (db : DB) (o : Op) (h : PairsUnique db) :
    PairsUnique (applyOp db o) := by
  cases o with
  | register uid mu mf email =>
      simp only [applyOp, register]
      split <;> exact h
  | reportItem iid uid t d cat loc ty tags img ts =>
      simp only [applyOp, reportItem]
      split <;> exact h
  | sendMessage nid m => exact h
  | clientCreateClaim caller iid cid nid msg =>
      simp only [applyOp, createClaim]
      split
      · exact h
      · cases hdb : dbInsertClaim db
            { id := cid, item_id := iid, claimant_id := caller
              message := msg, status := ClaimStatus.pending } with
        | none => exact h
        | some db1 =>
            have hp := pairsUnique_dbInsert db _ db1 h hdb
            cases hlook : lookupItem db iid with
            | none => exact hp
            | some it => exact hp
  | adminCreateClaim caller iid cid msg =>
      simp only [applyOp, createAdminClaim]
      cases hdb : dbInsertClaim db
          { id := cid, item_id := iid, claimant_id := caller
            message := msg, status := ClaimStatus.pending } with
      | none => exact h
      | some db1 => exact pairsUnique_dbInsert db _ db1 h hdb
  | setClaimStatus claimId st =>
      have hmap := pairsUnique_map_status db h
        (fun c => if c.id = claimId then { c with status := st } else c)
        (by intro a; dsimp only; split <;> exact ⟨rfl, rfl⟩)
      simp only [applyOp, updateClaimStatus]
      split
      · split
        · exact hmap
        · exact hmap
      · exact hmap
  | adminSetItemStatus iid st => exact h
  | adminEditItem iid t d loc => exact h
  | adminDeleteItem iid =>
      exact List.Pairwise.sublist (List.filter_sublist _) h
  | adminDeleteUser uid =>
      exact List.Pairwise.sublist (List.filter_sublist _) h
  | editProfile uid u f a =>
      simp only [applyOp, updateProfile]
      split <;> exact h
  | markOneNotificationRead nid => exact h
  | markAllRead uid => exact h
  | markConvRead caller iid otherId => exact h

theorem pairsUnique_reachable (db : DB) (h : Reachable db) : PairsUnique db := by
  induction h with
  | refl => exact List.Pairwise.nil
  | tail _ hstep ih =>
      obtain ⟨o, rfl⟩ := hstep
      exact pairsUnique_applyOp _ o ih

/-- Claim C3: in every reachable state at most one claim row exists per
(item, claimant) pair; a second insert of the same pair is rejected by the
uniqueness constraint, and the client flow additionally stops at its
pre-check, leaving the state unchanged. -/
theorem claims_pair_unique (db : DB) (h : Reachable db) :
    PairsUnique db ∧
    (∀ c : Claim,
        (∃ c0 ∈ db.claims, c0.item_id = c.item_id ∧ c0.claimant_id = c.claimant_id) →
        dbInsertClaim db c = none) ∧
    (∀ caller iid cid nid msg : String,
        (∃ c0 ∈ db.claims, c0.item_id = iid ∧ c0.claimant_id = caller) →
        createClaim db caller iid cid nid msg = db) := by
  refine ⟨pairsUnique_reachable db h, ?_, ?_⟩
  · intro c hex
    unfold dbInsertClaim
    rw [if_pos (pairTaken_of_exists db c.item_id c.claimant_id hex)]
  · intro caller iid cid nid msg hex
    unfold createClaim
    rw [if_pos (pairTaken_of_exists db iid caller hex)]

theorem demoDB_reachable : Reachable demoDB :=
  Relation.ReflTransGen.tail
    (Relation.ReflTransGen.tail
      (Relation.ReflTransGen.tail
        (Relation.ReflTransGen.tail Relation.ReflTransGen.refl
          ⟨Op.register "u1" (some "alice") none "alice@example.com", rfl⟩)
        ⟨Op.register "u2" (some "bob") none "bob@example.com", rfl⟩)
      ⟨Op.reportItem "i1" "u1" "Blue Backpack" "d" "bags" "park" ItemType.found [] none 0,
        rfl⟩)
    ⟨Op.clientCreateClaim "u2" "i1" "c1" "n1" "mine", rfl⟩

/-- Witness for C3 at the concrete reachable state `demoDB`. -/
theorem claims_pair_unique_witness :
    PairsUnique demoDB ∧
    (∀ c : Claim,
        (∃ c0 ∈ demoDB.claims, c0.item_id = c.item_id ∧ c0.claimant_id = c.claimant_id) →
        dbInsertClaim demoDB c = none) ∧
    (∀ caller iid cid nid msg : String,
        (∃ c0 ∈ demoDB.claims, c0.item_id = iid ∧ c0.claimant_id = caller) →
        createClaim demoDB caller iid cid nid msg = demoDB) :=
  claims_pair_unique demoDB demoDB_reachable

/-! ### Item kind immutability and status enumeration (C6) -/

theorem map_id_of_preserve (items : List Item) (f : Item → Item)
    (hf : ∀ it, (f it).id = it.id) :
    (items.map f).map Item.id = items.map Item.id := by
  rw [List.map_map]
  exact List.map_congr_left (fun a _ => hf a)

theorem itemIds_nodup_applyOp (db : DB) (o : Op) (h : NodupItemIds db) :
    NodupItemIds (applyOp db o) := by
  cases o with
  | register uid mu mf email =>
      simp only [applyOp, register]
      split <;> exact h
  | reportItem iid uid t d cat loc ty tags img ts =>
      simp only [applyOp, reportItem]
      split
      · exact h
      · rename_i hfresh
        show ((db.items ++ [_]).map Item.id).Nodup
        rw [List.map_append]
        refine List.Nodup.append h (by simp) ?_
        simp only [List.map_cons, List.map_nil]
        rw [List.disjoint_singleton]
        show iid ∉ List.map Item.id db.items
        intro hmem
        obtain ⟨it0, hit0, hid0⟩ := List.mem_map.mp hmem
        exact hfresh (List.any_eq_true.mpr ⟨it0, hit0, by simp [hid0]⟩)
  | sendMessage nid m => exact h
  | clientCreateClaim caller iid cid nid msg =>
      simp only [applyOp, createClaim]
      split
      · exact h
      · cases hdb : dbInsertClaim db
            { id := cid, item_id := iid, claimant_id := caller
              message := msg, status := ClaimStatus.pending } with
        | none => exact h
        | some db1 =>
            have hitems : db1.items = db.items := by
              unfold dbInsertClaim at hdb
              split_ifs at hdb
              obtain rfl := Option.some.inj hdb
              rfl
            cases hlook : lookupItem db iid with
            | none => show NodupItemIds db1; unfold NodupItemIds; rw [hitems]; exact h
            | some it =>
                show ((db1.items.map Item.id).Nodup)
                rw [hitems]; exact h
  | adminCreateClaim caller iid cid msg =>
      simp only [applyOp, createAdminClaim]
      cases hdb : dbInsertClaim db
          { id := cid, item_id := iid, claimant_id := caller
            message := msg, status := ClaimStatus.pending } with
      | none => exact h
      | some db1 =>
          have hitems : db1.items = db.items := by
            unfold dbInsertClaim at hdb
            split_ifs at hdb
            obtain rfl := Option.some.inj hdb
            rfl
          show ((db1.items.map Item.id).Nodup)
          rw [hitems]; exact h
  | setClaimStatus claimId st =>
      simp only [applyOp, updateClaimStatus]
      split
      · split
        · show ((db.items.map _).map Item.id).Nodup
          rw [map_id_of_preserve db.items _ (fun it => by split <;> rfl)]
          exact h
        · exact h
      · exact h
  | adminSetItemStatus iid st =>
      show ((db.items.map _).map Item.id).Nodup
      rw [map_id_of_preserve db.items _ (fun it => by split <;> rfl)]
      exact h
  | adminEditItem iid t d loc =>
      show ((db.items.map _).map Item.id).Nodup
      rw [map_id_of_preserve db.items _ (fun it => by split <;> rfl)]
      exact h
  | adminDeleteItem iid =>
      exact List.Nodup.sublist (List.Sublist.map Item.id (List.filter_sublist _)) h
  | adminDeleteUser uid =>
      exact List.Nodup.sublist (List.Sublist.map Item.id (List.filter_sublist _)) h
  | editProfile uid u f a =>
      simp only [applyOp, updateProfile]
      split <;> exact h
  | markOneNotificationRead nid => exact h
  | markAllRead uid => exact h
  | markConvRead caller iid otherId => exact h

theorem eq_of_mem_nodup_id (db : DB) (h : NodupItemIds db) (it it' : Item)
    (h1 : it ∈ db.items) (h2 : it' ∈ db.items) (heq : it'.id = it.id) : it' = it :=
  List.inj_on_of_nodup_map h h2 h1 heq

theorem type_eq_of_mem_map_preserve (db : DB) (h : NodupItemIds db)
    (f : Item → Item)
    (hf : ∀ a, (f a).id = a.id ∧ (f a).type = a.type)
    (it it' : Item) (h1 : it ∈ db.items) (h2 : it' ∈ db.items.map f)
    (heq : it'.id = it.id) : it'.type = it.type := by
  obtain ⟨it0, hit0, rfl⟩ := List.mem_map.mp h2
  have hid : it0.id = it.id := by rw [← (hf it0).1]; exact heq
  have : it0 = it := eq_of_mem_nodup_id db h it it0 h1 hit0 hid
  rw [(hf it0).2, this]

theorem item_type_step (db : DB) (o : Op) (h : NodupItemIds db)
    (it it' : Item) (h1 : it ∈ db.items) (h2 : it' ∈ (applyOp db o).items)
    (heq : it'.id = it.id) : it'.type = it.type := by
  have hbase : it' ∈ db.items → it'.type = it.type := fun hmem => by
    rw [eq_of_mem_nodup_id db h it it' h1 hmem heq]
  cases o with
  | register uid mu mf email =>
      simp only [applyOp, register] at h2
      split at h2 <;> exact hbase h2
  | reportItem iid uid t d cat loc ty tags img ts =>
      simp only [applyOp, reportItem] at h2
      split at h2
      · exact hbase h2
      · rename_i hfresh
        rw [List.mem_append] at h2
        cases h2 with
        | inl hmem => exact hbase hmem
        | inr hmem =>
            exfalso
            rw [List.mem_singleton] at hmem
            apply hfresh
            rw [List.any_eq_true]
            refine ⟨it, h1, ?_⟩
            have : it.id = iid := by rw [← heq, hmem]
            simp [this]
  | sendMessage nid m => exact hbase h2
  | clientCreateClaim caller iid cid nid msg =>
      simp only [applyOp, createClaim] at h2
      split at h2
      · exact hbase h2
      · revert h2
        cases hdb : dbInsertClaim db
            { id := cid, item_id := iid, claimant_id := caller
              message := msg, status := ClaimStatus.pending } with
        | none => exact fun h2 => hbase h2
        | some db1 =>
            have hitems : db1.items = db.items := by
              unfold dbInsertClaim at hdb
              split_ifs at hdb
              obtain rfl := Option.some.inj hdb
              rfl
            cases hlook : lookupItem db iid with
            | none => intro h2; rw [hitems] at h2; exact hbase h2
            | some itx => intro h2; rw [show ({ db1 with notifications :=
                db1.notifications ++ [claimNotification nid itx] } : DB).items
                  = db1.items from rfl, hitems] at h2; exact hbase h2
  | adminCreateClaim caller iid cid msg =>
      simp only [applyOp, createAdminClaim] at h2
      revert h2
      cases hdb : dbInsertClaim db
          { id := cid, item_id := iid, claimant_id := caller
            message := msg, status := ClaimStatus.pending } with
      | none => exact fun h2 => hbase h2
      | some db1 =>
          have hitems : db1.items = db.items := by
            unfold dbInsertClaim at hdb
            split_ifs at hdb
            obtain rfl := Option.some.inj hdb
            rfl
          intro h2; rw [hitems] at h2; exact hbase h2
  | setClaimStatus claimId st =>
      simp only [applyOp, updateClaimStatus] at h2
      split at h2
      · revert h2
        cases hfind : db.claims.find? (fun c => decide (c.id = claimId)) with
        | none => exact fun h2 => hbase h2
        | some c =>
            intro h2
            exact type_eq_of_mem_map_preserve db h _
              (fun a => by split <;> exact ⟨rfl, rfl⟩)
              it it' h1 h2 heq
      · exact hbase h2
  | adminSetItemStatus iid st =>
      exact type_eq_of_mem_map_preserve db h _
        (fun a => by split <;> exact ⟨rfl, rfl⟩) it it' h1 h2 heq
  | adminEditItem iid t d loc =>
      exact type_eq_of_mem_map_preserve db h _
        (fun a => by split <;> exact ⟨rfl, rfl⟩) it it' h1 h2 heq
  | adminDeleteItem iid =>
      exact hbase (List.mem_of_mem_filter h2)
  | adminDeleteUser uid =>
      exact hbase (List.mem_of_mem_filter h2)
  | editProfile uid u f a =>
      simp only [applyOp, updateProfile] at h2
      split at h2 <;> exact hbase h2
  | markOneNotificationRead nid => exact hbase h2
  | markAllRead uid => exact hbase h2
  | markConvRead caller iid otherId => exact hbase h2

theorem item_type_run (db : DB) (hnodup : NodupItemIds db) :
    ∀ (ops : List Op) (it it' : Item), it ∈ db.items → it' ∈ (run db ops).items →
      it'.id = it.id →
      (∀ p q, ops = p ++ q → ∃ itm ∈ (run db p).items, itm.id = it.id) →
      it'.type = it.type := by
  intro ops
  induction ops generalizing db with
  | nil =>
      intro it it' h1 h2 heq _
      rw [eq_of_mem_nodup_id db hnodup it it' h1 h2 heq]
  | cons o rest ih =>
      intro it it' h1 h2 heq hpersist
      obtain ⟨itm, hitm, hid⟩ := hpersist [o] rest rfl
      have hitm' : itm ∈ (applyOp db o).items := hitm
      have hstep : itm.type = it.type :=
        item_type_step db o hnodup it itm h1 hitm' hid
      have hrest : it'.type = itm.type := by
        refine ih (applyOp db o) (itemIds_nodup_applyOp db o hnodup) itm it'
          hitm' h2 (by rw [heq, hid]) ?_
        intro p q hpq
        obtain ⟨m, hm, hmid⟩ := hpersist (o :: p) q (by rw [hpq, List.cons_append])
        exact ⟨m, hm, by rw [hmid, hid]⟩
      rw [hrest, hstep]

theorem itemIds_nodup_reachable (db : DB) (h : Reachable db) : NodupItemIds db := by
  induction h with
  | refl => exact List.Pairwise.nil
  | tail _ hstep ih =>
      obtain ⟨o, rfl⟩ := hstep
      exact itemIds_nodup_applyOp _ o ih

/-- Claim C6: an Item's kind (`lost`/`found`) never changes after the row is
created — along any operation sequence from a reachable state, an item row
that stays present keeps its `type` — and an item's status is always one of
`active`, `claimed`, `archived`. -/
theorem item_kind_immutable_status_enum (db : DB) (h : Reachable db) :
    (∀ it ∈ db.items,
        it.status = ItemStatus.active ∨ it.status = ItemStatus.claimed ∨
          it.status = ItemStatus.archived) ∧
    (∀ (ops : List Op) (it it' : Item), it ∈ db.items → it' ∈ (run db ops).items →
        it'.id = it.id →
        (∀ p q, ops = p ++ q → ∃ itm ∈ (run db p).items, itm.id = it.id) →
        it'.type = it.type) := by
  constructor
  · intro it _
    cases hst : it.status
    · exact Or.inl rfl
    · exact Or.inr (Or.inl rfl)
    · exact Or.inr (Or.inr rfl)
  · exact item_type_run db (itemIds_nodup_reachable db h)

/-- Witness for C6 at the concrete reachable state `demoDB`. -/
theorem item_kind_immutable_status_enum_witness :
    (∀ it ∈ demoDB.items,
        it.status = ItemStatus.active ∨ it.status = ItemStatus.claimed ∨
          it.status = ItemStatus.archived) ∧
    (∀ (ops : List Op) (it it' : Item), it ∈ demoDB.items →
        it' ∈ (run demoDB ops).items → it'.id = it.id →
        (∀ p q, ops = p ++ q → ∃ itm ∈ (run demoDB p).items, itm.id = it.id) →
        it'.type = it.type) :=
  item_kind_immutable_status_enum demoDB demoDB_reachable

/-! ### Conversations (C8) -/

theorem flatten_map_update (key : String × String) (m : Message)
    (g : Conversation → Conversation)
    (hg_match : ∀ c, convKey c = key → (g c).messages = c.messages ++ [m])
    (hg_nomatch : ∀ c, convKey c ≠ key → g c = c) :
    ∀ (acc : List Conversation),
      acc.Pairwise (fun a b => convKey a ≠ convKey b) →
      (∃ c ∈ acc, convKey c = key) →
      List.Perm (((acc.map g).map Conversation.messages).flatten)
        (((acc.map Conversation.messages).flatten) ++ [m]) := by
  intro acc
  induction acc with
  | nil => rintro _ ⟨c, hc, _⟩; cases hc
  | cons a tl ih =>
      intro hpair hex
      rw [List.pairwise_cons] at hpair
      obtain ⟨hhead, htl⟩ := hpair
      by_cases ha : convKey a = key
      · have htlfix : tl.map g = tl := by
          have hcongr := List.map_congr_left (fun c hc => hg_nomatch c
            (fun hck => hhead c hc (ha.trans hck.symm)))
          simpa using hcongr
        simp only [List.map_cons, List.flatten_cons, hg_match a ha, htlfix]
        rw [List.append_assoc, List.append_assoc]
        exact List.Perm.append_left _ (List.perm_append_comm)
      · have hfix : g a = a := hg_nomatch a ha
        obtain ⟨c, hc, hck⟩ := hex
        rw [List.mem_cons] at hc
        rcases hc with rfl | hc
        · exact absurd hck ha
        simp only [List.map_cons, List.flatten_cons, hfix]
        rw [List.append_assoc]
        exact List.Perm.append_left _ (ih htl ⟨c, hc, hck⟩)

theorem addMessage_inv (caller : String) (db : DB) (acc : List Conversation)
    (m : Message) (hm : involves caller m = true)
    (hinv : GroupInv caller db acc)
    (hbound : ∀ c ∈ acc, m.created_at ≤ c.last_message_date) :
    GroupInv caller db (addMessage caller db acc m) ∧
    (∀ c ∈ addMessage caller db acc m, m.created_at ≤ c.last_message_date) ∧
    List.Perm (((addMessage caller db acc m).map Conversation.messages).flatten)
      (((acc.map Conversation.messages).flatten) ++ [m]) := by
  obtain ⟨hok, hkeys⟩ := hinv
  by_cases hany :
      acc.any (fun c => decide (convKey c = (m.item_id, otherParty caller m))) = true
  · simp only [addMessage, hany, if_true]
    set f : Conversation → Conversation := fun c =>
      if convKey c = (m.item_id, otherParty caller m) then
        { c with
          messages := c.messages ++ [m]
          unread_count := c.unread_count + (if unreadFor caller m then 1 else 0) }
      else c with hf
    have hkey : ∀ c, convKey (f c) = convKey c := fun c => by
      rw [hf]; dsimp only; split <;> rfl
    have hlast : ∀ c, (f c).last_message_date = c.last_message_date := fun c => by
      rw [hf]; dsimp only; split <;> rfl
    refine ⟨⟨?_, ?_⟩, ?_, ?_⟩
    · intro c' hc'
      obtain ⟨c, hc, rfl⟩ := List.mem_map.mp hc'
      have hbok := hok c hc
      obtain ⟨hne, hfields, hunread, hlastmem, hbnd, htitle, huser⟩ := hbok
      by_cases hck : convKey c = (m.item_id, otherParty caller m)
      · have hcid : c.item_id = m.item_id := congrArg Prod.fst hck
        have hcuid : c.other_user_id = otherParty caller m := congrArg Prod.snd hck
        have hfc : f c =
            { c with
              messages := c.messages ++ [m]
              unread_count := c.unread_count + (if unreadFor caller m then 1 else 0) } := by
          rw [hf]; dsimp only; rw [if_pos hck]
        rw [hfc]
        refine ⟨by simp, ?_, ?_, ?_, ?_, htitle, huser⟩
        · intro m' hm'
          rw [List.mem_append, List.mem_singleton] at hm'
          rcases hm' with hm' | rfl
          · exact hfields m' hm'
          · exact ⟨hcid.symm, hcuid.symm, hm⟩
        · show c.unread_count + _ = ((c.messages ++ [m]).filter (unreadFor caller)).length
          rw [List.filter_append, List.length_append, hunread]
          cases hu : unreadFor caller m <;> simp [List.filter, hu]
        · show c.last_message_date ∈ (c.messages ++ [m]).map Message.created_at
          rw [List.map_append, List.mem_append]
          exact Or.inl hlastmem
        · intro m' hm'
          rw [List.mem_append, List.mem_singleton] at hm'
          rcases hm' with hm' | rfl
          · exact hbnd m' hm'
          · exact hbound c hc
      · have hfc : f c = c := by rw [hf]; dsimp only; rw [if_neg hck]
        rw [hfc]
        exact ⟨hne, hfields, hunread, hlastmem, hbnd, htitle, huser⟩
    · rw [List.pairwise_map]
      refine hkeys.imp ?_
      intro a b hab
      rw [hkey, hkey]
      exact hab
    · intro c' hc'
      obtain ⟨c, hc, rfl⟩ := List.mem_map.mp hc'
      rw [hlast]
      exact hbound c hc
    · rw [List.any_eq_true] at hany
      obtain ⟨c, hc, hck⟩ := hany
      rw [decide_eq_true_eq] at hck
      refine flatten_map_update (m.item_id, otherParty caller m) m f
        (fun c hck => by rw [hf]; dsimp only; rw [if_pos hck])
        (fun c hck => by rw [hf]; dsimp only; rw [if_neg hck])
        acc hkeys ⟨c, hc, hck⟩
  · rw [Bool.not_eq_true] at hany
    simp only [addMessage, hany, Bool.false_eq_true, if_false]
    have hnotin : ∀ c ∈ acc, convKey c ≠ (m.item_id, otherParty caller m) := by
      intro c hc
      have := List.any_eq_false.mp hany c hc
      rw [decide_eq_true_eq] at this
      exact this
    refine ⟨⟨?_, ?_⟩, ?_, ?_⟩
    · intro c' hc'
      rw [List.mem_append, List.mem_singleton] at hc'
      rcases hc' with hc' | rfl
      · exact hok c' hc'
      · refine ⟨by simp, ?_, ?_, ?_, ?_, rfl, rfl⟩
        · intro m' hm'
          rw [List.mem_singleton] at hm'
          subst hm'
          exact ⟨rfl, rfl, hm⟩
        · show (if unreadFor caller m then 1 else 0) =
            (([m]).filter (unreadFor caller)).length
          cases hu : unreadFor caller m <;> simp [List.filter, hu]
        · show m.created_at ∈ [m].map Message.created_at
          simp
        · intro m' hm'
          rw [List.mem_singleton] at hm'
          subst hm'
          exact Nat.le_refl _
    · rw [List.pairwise_append]
      refine ⟨hkeys, List.pairwise_singleton _ _, ?_⟩
      intro a ha b hb
      rw [List.mem_singleton] at hb
      subst hb
      exact hnotin a ha
    · intro c' hc'
      rw [List.mem_append, List.mem_singleton] at hc'
      rcases hc' with hc' | rfl
      · exact hbound c' hc'
      · exact Nat.le_refl _
    · apply List.Perm.of_eq
      simp

theorem groupFold_inv (caller : String) (db : DB) :
    ∀ (l : List Message) (acc : List Conversation),
      (∀ m ∈ l, involves caller m = true) →
      l.Pairwise (fun a b => b.created_at ≤ a.created_at) →
      GroupInv caller db acc →
      (∀ c ∈ acc, ∀ m ∈ l, m.created_at ≤ c.last_message_date) →
      GroupInv caller db (l.foldl (addMessage caller db) acc) ∧
      List.Perm
        (((l.foldl (addMessage caller db) acc).map Conversation.messages).flatten)
        (((acc.map Conversation.messages).flatten) ++ l) := by
  intro l
  induction l with
  | nil => intro acc _ _ hinv _; exact ⟨hinv, by simp⟩
  | cons m rest ih =>
      intro acc hinvolves hsorted hinv hbound
      rw [List.pairwise_cons] at hsorted
      obtain ⟨hmrest, hrest⟩ := hsorted
      obtain ⟨hinv1, hbound1, hperm1⟩ :=
        addMessage_inv caller db acc m (hinvolves m (by simp)) hinv
          (fun c hc => hbound c hc m (by simp))
      have hboundrest : ∀ c ∈ addMessage caller db acc m, ∀ m' ∈ rest,
          m'.created_at ≤ c.last_message_date := by
        intro c hc m' hm'
        exact Nat.le_trans (hmrest m' hm') (hbound1 c hc)
      have hih := ih (addMessage caller db acc m)
        (fun m' hm' => hinvolves m' (by simp [hm'])) hrest hinv1 hboundrest
      refine ⟨hih.1, ?_⟩
      rw [List.foldl_cons]
      refine hih.2.trans ?_
      have happ := List.Perm.append_right rest hperm1
      refine happ.trans (List.Perm.of_eq ?_)
      rw [List.append_assoc]
      rfl

theorem sortBucket_ok (caller : String) (db : DB) (c : Conversation)
    (h : BucketOK caller db c) :
    BucketOK caller db (sortBucket c) ∧
    convKey (sortBucket c) = convKey c ∧
    (sortBucket c).last_message_date = c.last_message_date ∧
    (sortBucket c).messages.Pairwise (fun a b => a.created_at ≤ b.created_at) := by
  obtain ⟨hne, hfields, hunread, hlastmem, hbnd, htitle, huser⟩ := h
  have hperm : List.Perm (sortBucket c).messages c.messages :=
    List.mergeSort_perm c.messages _
  refine ⟨⟨?_, ?_, ?_, ?_, ?_, htitle, huser⟩, rfl, rfl, ?_⟩
  · intro hnil
    apply hne
    rw [hnil] at hperm
    exact ((hperm.symm).eq_nil)
  · intro m hm
    exact hfields m (hperm.mem_iff.mp hm)
  · show c.unread_count = _
    rw [hunread, ← (hperm.filter (unreadFor caller)).length_eq]
  · show c.last_message_date ∈ _
    rw [(hperm.map Message.created_at).mem_iff]
    exact hlastmem
  · intro m hm
    exact hbnd m (hperm.mem_iff.mp hm)
  · have hs := @List.sorted_mergeSort Message
      (fun a b => decide (a.created_at ≤ b.created_at))
      (fun a b c hab hbc => by
        rw [decide_eq_true_eq] at *
        omega)
      (fun a b => by
        rcases Nat.le_total a.created_at b.created_at with hle | hle <;>
          simp [hle])
      c.messages
    exact hs.imp (fun hab => by simpa using hab)

theorem flatten_sortBucket (l : List Conversation) :
    List.Perm (((l.map sortBucket).map Conversation.messages).flatten)
      ((l.map Conversation.messages).flatten) := by
  induction l with
  | nil => simp
  | cons c tl ih =>
      simp only [List.map_cons, List.flatten_cons]
      exact (List.mergeSort_perm c.messages _).append ih

/-- Claim C8: `fetchConversations` takes exactly the messages whose sender or
recipient is the caller, groups them into buckets keyed by
`(item_id, other_party)` (keys pairwise distinct, every message in the right
bucket, titles/usernames joined client-side), sorts each bucket ascending by
creation time, sorts the bucket list descending by its most recent message
time (`last_message_date`, the maximum of the bucket's dates), and each
bucket's unread count is the number of its messages addressed to the caller
with `read = false`. -/
theorem fetchConversations_spec (caller : String) (db : DB) :
    (∀ c ∈ fetchConversations caller db, BucketOK caller db c) ∧
    (fetchConversations caller db).Pairwise (fun a b => convKey a ≠ convKey b) ∧
    (∀ c ∈ fetchConversations caller db,
        c.messages.Pairwise (fun a b => a.created_at ≤ b.created_at)) ∧
    (fetchConversations caller db).Pairwise
      (fun a b => b.last_message_date ≤ a.last_message_date) ∧
    List.Perm (((fetchConversations caller db).map Conversation.messages).flatten)
      (db.messages.filter (involves caller)) := by
  have hmsorted : (sortedMessages caller db).Pairwise
      (fun a b => b.created_at ≤ a.created_at) := by
    have hs := @List.sorted_mergeSort Message
      (fun a b => decide (b.created_at ≤ a.created_at))
      (fun a b c hab hbc => by
        rw [decide_eq_true_eq] at *
        omega)
      (fun a b => by
        rcases Nat.le_total a.created_at b.created_at with hle | hle <;>
          simp [hle])
      (db.messages.filter (involves caller))
    exact hs.imp (fun hab => by simpa using hab)
  have hminv : ∀ m ∈ sortedMessages caller db, involves caller m = true := by
    intro m hm
    have hm' : m ∈ db.messages.filter (involves caller) :=
      List.mem_mergeSort.mp hm
    exact List.of_mem_filter hm'
  have hmperm : List.Perm (sortedMessages caller db)
      (db.messages.filter (involves caller)) :=
    List.mergeSort_perm _ _
  obtain ⟨⟨hok, hkeys⟩, hperm⟩ := groupFold_inv caller db (sortedMessages caller db) []
    hminv hmsorted ⟨by simp, List.Pairwise.nil⟩ (by simp)
  have hfinalperm : List.Perm (fetchConversations caller db)
      ((groupedConversations caller db).map sortBucket) :=
    List.mergeSort_perm _ _
  have hmem : ∀ c ∈ fetchConversations caller db,
      ∃ c0 ∈ groupedConversations caller db, c = sortBucket c0 := by
    intro c hc
    have hc2 : c ∈ (groupedConversations caller db).map sortBucket :=
      hfinalperm.mem_iff.mp hc
    obtain ⟨c0, hc0, rfl⟩ := List.mem_map.mp hc2
    exact ⟨c0, hc0, rfl⟩
  refine ⟨?_, ?_, ?_, ?_, ?_⟩
  · intro c hc
    obtain ⟨c0, hc0, rfl⟩ := hmem c hc
    exact (sortBucket_ok caller db c0 (hok c0 hc0)).1
  · have hkeys2 : ((groupedConversations caller db).map sortBucket).Pairwise
        (fun a b => convKey a ≠ convKey b) := by
      rw [List.pairwise_map]
      exact hkeys
    exact (hfinalperm.pairwise_iff (fun {a b} hab => Ne.symm hab)).mpr hkeys2
  · intro c hc
    obtain ⟨c0, hc0, rfl⟩ := hmem c hc
    exact (sortBucket_ok caller db c0 (hok c0 hc0)).2.2.2
  · have hs := @List.sorted_mergeSort Conversation
      (fun a b => decide (b.last_message_date ≤ a.last_message_date))
      (fun a b c hab hbc => by
        rw [decide_eq_true_eq] at *
        omega)
      (fun a b => by
        rcases Nat.le_total a.last_message_date b.last_message_date with hle | hle <;>
          simp [hle])
      ((groupedConversations caller db).map sortBucket)
    exact hs.imp (fun hab => by simpa using hab)
  · refine ((hfinalperm.map Conversation.messages).flatten).trans ?_
    refine (flatten_sortBucket (groupedConversations caller db)).trans ?_
    refine hperm.trans ?_
    refine (List.Perm.of_eq (by simp)).trans hmperm

end LostFound
